import Mathlib

/-!
# Wa-Tor simulation (thestevenlol/wa-tor) — verification of the spec's claims

Shallow embedding of `src/main.go` (the concurrent variant, which is the
repository's authoritative source file).  Go `int` values are embedded as `Int`
(counters can go negative exactly where the Go code lets them), the fixed
`[gridSize][gridSize]Cell` array as a list of rows, the `SafeMap` claim table
as a list of claimed positions, and the global `rand` source as an injected
stream of natural-number draws (`rand.Intn(k)` becomes `head % k`).

The Go `Update` launches one `updateShark` goroutine and one `updateFish`
goroutine per row band and waits for all of them with a single `WaitGroup`.
The sequential model makes the schedule explicit: a tick runs a list of
band-tasks in a given order; any permutation of the tasks is a behaviour the
Go scheduler may produce (it may run each goroutine to completion in any
order), and the dispatch order of the `go` statements is
shark(band0), fish(band0), shark(band1), fish(band1), …
-/

namespace Wator

/-- `CellType` from main.go (`Empty | Fish | Shark`). -/
inductive CellType where
  | Empty
  | Fish
  | Shark
deriving DecidableEq

/-- `Cell` from main.go: `Type`, `BreedTime`, `StarveTime` (Go `int` → `Int`).
The Go zero value is `{Empty, 0, 0}`. -/
structure Cell where
  type : CellType
  breedTime : Int
  starveTime : Int
deriving DecidableEq

/-- The Go zero-value cell `Cell{}` (also `Cell{Type: Empty}`). -/
def emptyCell : Cell := ⟨CellType.Empty, 0, 0⟩

/-- Simulation constants from main.go. -/
def fishBreedTime : Int := 3

def sharkBreedTime : Int := 8

def sharkStarveTime : Int := 3

/-- A grid position `(x, y)`, matching Go's `[2]int{x, y}`. -/
abbrev Pos := Nat × Nat

/-- The grid `[gridSize][gridSize]Cell`, as a list of rows (row `y`, column `x`).
The dimension is passed separately (`gridSize = 333` in main.go; the spec calls
it `N`). -/
abbrev Grid := List (List Cell)

/-- Read `g.grid[y][x]`; out-of-range reads default to the zero cell. -/
def gget (g : Grid) (p : Pos) : Cell := (g.getD p.2 []).getD p.1 emptyCell

/-- Write `newGrid[y][x] = c`. -/
def gset (g : Grid) (p : Pos) (c : Cell) : Grid :=
  g.set p.2 ((g.getD p.2 []).set p.1 c)

/-- The all-`Empty` next-generation buffer `&[gridSize][gridSize]Cell{}`. -/
def emptyGrid (n : Nat) : Grid := List.replicate n (List.replicate n emptyCell)

/-- `Game.GetAdjacent` from main.go: the four neighbours of `(x, y)` in the
order left, right, up, down, each coordinate computed as
`(v + d + gridSize) % gridSize`. -/
def GetAdjacent (n : Nat) (x y : Nat) : List Pos :=
  [((-1 : Int), (0 : Int)), (1, 0), (0, -1), (0, 1)].map fun d =>
    (((x + d.1 + n) % (n : Int)).toNat, ((y + d.2 + n) % (n : Int)).toNat)

/-- The injected random source: a stream of raw draws.  `rand.Intn(k)`
consumes the head and reduces it modulo `k`. -/
abbrev Rng := List Nat

/-- `rand.Intn(k)` on the injected stream. -/
def intn (r : Rng) (k : Nat) : Nat × Rng := (r.headD 0 % k, r.tail)

/-- Swap two list entries, the in-place `slice[i], slice[j] = slice[j], slice[i]`. -/
def swapL (l : List Pos) (i j : Nat) : List Pos :=
  (l.set i (l.getD j (0, 0))).set j (l.getD i (0, 0))

/-- The loop of `Shuffle`: `for i := len(slice) - 1; i > 0; i--` with
`j := rand.Intn(i + 1)`.  The argument of `shuffleAux` is the current loop
index `i`. -/
def shuffleAux : Nat → List Pos → Rng → List Pos × Rng
  | 0, l, r => (l, r)
  | i + 1, l, r =>
    let jr := intn r (i + 2)
    shuffleAux i (swapL l (i + 1) jr.1) jr.2

/-- `Shuffle` from main.go (Fisher–Yates over the slice).  The Go code reseeds
the global generator from the wall clock before the loop; under the injected
fixed draw stream of this model the loop simply consumes the next draws. -/
def Shuffle (l : List Pos) (r : Rng) : List Pos × Rng :=
  shuffleAux (l.length - 1) l r

/-- Tick-local worker state: the `newGrid` buffer, the `SafeMap` of claimed
positions (`moved`), and the remaining random stream. -/
structure St where
  next : Grid
  moved : List Pos
  rng : Rng
deriving DecidableEq

/-- The shark scan predicate `g.grid[pos[1]][pos[0]].Type == Fish && !moved[pos]`. -/
def fishTarget (g : Grid) (moved : List Pos) (p : Pos) : Bool :=
  decide ((gget g p).type = CellType.Fish ∧ p ∉ moved)

/-- The first shuffled neighbour holding a fish whose position is unclaimed —
the scan-with-`break` of `updateShark` (main.go lines 132–146). -/
def sharkEat (g : Grid) (moved : List Pos) (adj : List Pos) : Option Pos :=
  adj.find? (fishTarget g moved)

/-- The empty-space predicate `g.grid[pos[1]][pos[0]].Type == Empty && !moved[pos]`. -/
def emptyTarget (g : Grid) (moved : List Pos) (p : Pos) : Bool :=
  decide ((gget g p).type = CellType.Empty ∧ p ∉ moved)

/-- `emptySpaces`: the claimable empty neighbours (order of `adj` preserved). -/
def emptyNeighbors (g : Grid) (moved : List Pos) (adj : List Pos) : List Pos :=
  adj.filter (emptyTarget g moved)

/-- `emptySpaces[rand.Intn(len(emptySpaces))]` for draw head `h`. -/
def pickDest (es : List Pos) (h : Nat) : Pos := es.getD (h % es.length) (0, 0)

/-- Body of `updateShark` for one shark cell, after the adjacency has been
shuffled (main.go lines 130–182).  `cell` is `g.grid[y][x]`. -/
def sharkAct (g : Grid) (st : St) (x y : Nat) (adj : List Pos) : St :=
  let cell := gget g (x, y)
  match sharkEat g st.moved adj with
  | some pos =>
    -- shark eats fish and moves; `break` ends the scan
    ⟨gset st.next pos ⟨CellType.Shark, cell.breedTime - 1, sharkStarveTime⟩,
      pos :: st.moved, st.rng⟩
  | none =>
    let es := emptyNeighbors g st.moved adj
    if 0 < es.length then
      let newPos := pickDest es (st.rng.headD 0)
      let s2 := cell.starveTime - 1
      let b2 := cell.breedTime - 1
      if s2 ≤ 0 then
        ⟨gset st.next newPos emptyCell, newPos :: st.moved, st.rng.tail⟩
      else if b2 ≤ 0 then
        ⟨gset (gset st.next (x, y) ⟨CellType.Shark, sharkBreedTime, sharkStarveTime⟩)
            newPos ⟨CellType.Shark, sharkBreedTime, s2⟩,
          newPos :: st.moved, st.rng.tail⟩
      else
        ⟨gset st.next newPos ⟨CellType.Shark, b2, s2⟩, newPos :: st.moved, st.rng.tail⟩
    else
      ⟨gset st.next (x, y) cell, st.moved, st.rng⟩

/-- One iteration of the `updateShark` x/y loop body (main.go lines 121–183):
skip claimed cells, act only on sharks, shuffling the adjacency first. -/
def sharkCellStep (n : Nat) (g : Grid) (st : St) (x y : Nat) : St :=
  if (x, y) ∈ st.moved then st
  else if (gget g (x, y)).type = CellType.Shark then
    let ar := Shuffle (GetAdjacent n x y) st.rng
    sharkAct g ⟨st.next, st.moved, ar.2⟩ x y ar.1
  else st

/-- Body of `updateFish` for one fish cell (main.go lines 198–225).
`updateFish` does not shuffle the adjacency. -/
def fishAct (g : Grid) (st : St) (x y : Nat) (adj : List Pos) : St :=
  let cell := gget g (x, y)
  let es := emptyNeighbors g st.moved adj
  if 0 < es.length then
    let newPos := pickDest es (st.rng.headD 0)
    let b2 := cell.breedTime - 1
    if b2 ≤ 0 then
      -- reproduce: fresh fish at the origin, moved fish (countdown reset) at dest
      ⟨gset (gset st.next (x, y) ⟨CellType.Fish, fishBreedTime, 0⟩)
          newPos ⟨CellType.Fish, fishBreedTime, cell.starveTime⟩,
        newPos :: st.moved, st.rng.tail⟩
    else
      ⟨gset st.next newPos ⟨CellType.Fish, b2, cell.starveTime⟩,
        newPos :: st.moved, st.rng.tail⟩
  else
    ⟨gset st.next (x, y) cell, st.moved, st.rng⟩

/-- One iteration of the `updateFish` x/y loop body (main.go lines 192–226). -/
def fishCellStep (n : Nat) (g : Grid) (st : St) (x y : Nat) : St :=
  if (x, y) ∈ st.moved then st
  else if (gget g (x, y)).type = CellType.Fish then
    fishAct g st x y (GetAdjacent n x y)
  else st

/-- The inner `for x` loop of a pass over row `y`. -/
def sharkRow (n : Nat) (g : Grid) (st : St) (y : Nat) : St :=
  (List.range n).foldl (fun s x => sharkCellStep n g s x y) st

/-- `updateShark(newGrid, yMin, yMax, moved, g)`: rows `y ∈ [yMin, yMax)`. -/
def updateShark (n : Nat) (g : Grid) (yMin yMax : Nat) (st : St) : St :=
  (List.range' yMin (yMax - yMin)).foldl (sharkRow n g) st

/-- The inner `for x` loop of the fish pass over row `y`. -/
def fishRow (n : Nat) (g : Grid) (st : St) (y : Nat) : St :=
  (List.range n).foldl (fun s x => fishCellStep n g s x y) st

/-- `updateFish(newGrid, yMin, yMax, moved, g)`: rows `y ∈ [yMin, yMax)`. -/
def updateFish (n : Nat) (g : Grid) (yMin yMax : Nat) (st : St) : St :=
  (List.range' yMin (yMax - yMin)).foldl (fishRow n g) st

/-- One worker goroutine of `Game.Update`: either an `updateShark` band or an
`updateFish` band. -/
inductive Job where
  | sharkJob (yMin yMax : Nat)
  | fishJob (yMin yMax : Nat)
deriving DecidableEq

/-- Run one worker to completion. -/
def runJob (n : Nat) (g : Grid) (st : St) : Job → St
  | Job.sharkJob a b => updateShark n g a b st
  | Job.fishJob a b => updateFish n g a b st

/-- Run the tick's workers in the order given by the schedule.  The Go
`Update` synchronises only through the single `WaitGroup` at the end, so every
permutation of the jobs is a schedule its runtime may realise. -/
def runJobs (n : Nat) (g : Grid) (ts : List Job) (st : St) : St :=
  ts.foldl (runJob n g) st

/-- `Game.Update` for a given schedule: fresh `newGrid`, fresh `SafeMap`, run
the workers, then `g.grid = *newGrid`.  Returns the new grid and the remaining
random stream. -/
def Update (n : Nat) (ts : List Job) (r : Rng) (g : Grid) : Grid × Rng :=
  let s := runJobs n g ts ⟨emptyGrid n, [], r⟩
  (s.next, s.rng)

/-- Iterate `Update` for a number of ticks, threading the random stream. -/
def run (n : Nat) (ts : List Job) : Nat → Rng → Grid → Grid
  | 0, _, g => g
  | k + 1, r, g => run n ts k (Update n ts r g).2 (Update n ts r g).1

/-- The order in which `Game.Update` issues its `go` statements:
`shark(band)` then `fish(band)`, band by band (main.go lines 265–275).  This
is one of the schedules the runtime may realise; there is no barrier between
the shark jobs and the fish jobs. -/
def dispatchJobs (bs : List (Nat × Nat)) : List Job :=
  (bs.map fun b => [Job.sharkJob b.1 b.2, Job.fishJob b.1 b.2]).flatten

/-- The schedule the spec demands: every shark band completes (in band order)
before any fish band starts. -/
def barrierJobs (bs : List (Nat × Nat)) : List Job :=
  (bs.map fun b => Job.sharkJob b.1 b.2) ++ bs.map fun b => Job.fishJob b.1 b.2

/-- `GetThreadYBounds`: cumulative `(MinY, MaxY)` bounds from a list of band
heights. -/
def boundsOfHeights : Nat → List Nat → List (Nat × Nat)
  | _, [] => []
  | s, h :: t => (s, s + h) :: boundsOfHeights (s + h) t

/-- One cell of `Game.Initialise`: `random := rand.Intn(100)`, fish below the
fish percentage (50), shark below fish+shark percentage (70), empty otherwise. -/
def initCell (d : Nat) : Cell :=
  if d % 100 < 50 then ⟨CellType.Fish, fishBreedTime, 0⟩
  else if d % 100 < 70 then ⟨CellType.Shark, sharkBreedTime, sharkStarveTime⟩
  else emptyCell

/-- `Game.Initialise`: one draw per cell, row-major (y outer, x inner). -/
def Initialise (n : Nat) (r : Rng) : Grid :=
  (List.range n).map fun y => (List.range n).map fun x => initCell (r.getD (y * n + x) 0)

/-! ## The claim table (C1)

`SafeMap.Get` and `SafeMap.Set` (main.go lines 242–253) each hold the mutex,
so each single call is atomic, but the claim pattern of the workers
(main.go lines 134–141 and 153/178 and 203/222) is `Get` followed later by
`Set`: two separate critical sections.  The model below has one shared flag
for one position and two workers A and B; each worker's program is its `Get`
(recording the observed value) followed, on the success path only, by its
`Set`.  A schedule is any interleaving of the two programs. -/

/-- One mutex-atomic `SafeMap` operation by worker A or B at a fixed position. -/
inductive MapAct where
  | getA
  | setA
  | getB
  | setB
deriving DecidableEq

/-- Shared claim flag plus each worker's observed `Get` result
(`none` = not yet executed). -/
structure RaceSt where
  claimed : Bool
  obsA : Option Bool
  obsB : Option Bool
deriving DecidableEq

/-- Execute one atomic `SafeMap` operation.  A worker executes its `Set` only
after having observed `false` (the success path of main.go lines 134–141). -/
def raceStep (s : RaceSt) : MapAct → RaceSt
  | MapAct.getA => { s with obsA := some s.claimed }
  | MapAct.getB => { s with obsB := some s.claimed }
  | MapAct.setA => if s.obsA = some false then { s with claimed := true } else s
  | MapAct.setB => if s.obsB = some false then { s with claimed := true } else s

/-- Run a schedule from the unclaimed state. -/
def raceRun (acts : List MapAct) : RaceSt := acts.foldl raceStep ⟨false, none, none⟩

/-- A 2×2 grid: a fish at `(0,0)` (row band 0) and a shark at `(0,1)`
(row band 1). -/
def g22 : Grid := [[⟨CellType.Fish, 3, 0⟩, emptyCell], [⟨CellType.Shark, 8, 3⟩, emptyCell]]

/-- Seeding draws for `Initialise` on a 4×4 grid: draw 60 at cell `(1,1)`
(a shark), draw 0 everywhere else (fish). -/
def seedDraws : Rng := [0, 0, 0, 0, 0, 60, 0, 0, 0, 0, 0, 0, 0, 0, 0, 0]

/-- Abbreviation for a fish cell (fish keep `StarveTime = 0`). -/
def F (b : Int) : Cell := ⟨CellType.Fish, b, 0⟩

/-- Abbreviation for a shark cell. -/
def S (b s : Int) : Cell := ⟨CellType.Shark, b, s⟩

/-- Abbreviation for the empty cell. -/
def E : Cell := emptyCell

/-- The seeded 4×4 start grid and the nine grids the code's tick produces from
it (one definition per tick, verified below step by step). -/
def gC7_0 : Grid := [[F 3, F 3, F 3, F 3], [F 3, S 8 3, F 3, F 3], [F 3, F 3, F 3, F 3], [F 3, F 3, F 3, F 3]]

def gC7_1 : Grid := [[F 3, F 3, F 3, F 3], [F 3, E, S 7 3, F 3], [F 3, F 3, F 3, F 3], [F 3, F 3, F 3, F 3]]

def gC7_2 : Grid := [[F 3, E, F 3, F 3], [F 3, F 2, E, S 6 3], [F 3, F 3, F 3, F 3], [F 3, F 3, F 3, F 3]]

def gC7_3 : Grid := [[E, F 2, E, F 3], [S 5 3, F 2, F 2, E], [F 3, F 3, F 3, F 3], [F 3, F 3, F 3, F 3]]

def gC7_4 : Grid := [[F 1, E, F 2, E], [E, S 4 3, E, F 1], [F 3, F 3, F 3, F 3], [F 3, F 3, F 3, F 3]]

def gC7_5 : Grid := [[F 3, F 1, E, F 3], [F 2, E, F 3, F 3], [E, S 3 3, F 3, F 3], [F 3, F 3, F 3, F 3]]

def gC7_6 : Grid := [[F 3, F 3, F 3, F 3], [E, F 1, F 3, F 3], [F 2, E, S 2 3, E], [F 3, F 3, F 3, F 3]]

def gC7_7 : Grid := [[E, F 3, F 3, F 3], [F 2, F 3, S 1 3, E], [F 2, F 3, E, F 2], [F 3, F 3, F 3, F 3]]

def gC7_8 : Grid := [[F 2, E, S 0 3, E], [F 2, F 3, E, F 2], [F 2, E, F 2, F 2], [F 3, F 3, F 3, F 3]]

def gC7_9 : Grid := [[E, F 2, E, F 1], [F 2, E, F 2, F 2], [E, F 1, F 2, F 2], [F 3, E, S (-1) 3, F 3]]

/-- A 2×2 grid with a lone shark (`StarveTime = 1`) at `(0, 0)`. -/
def gLoneShark : Grid := [[⟨CellType.Shark, 8, 1⟩, emptyCell], [emptyCell, emptyCell]]

/-- A 2×2 grid with a lone fish (`BreedTime = 1`) at `(0, 0)`. -/
def gLoneFish : Grid := [[⟨CellType.Fish, 1, 0⟩, emptyCell], [emptyCell, emptyCell]]

/-- The part of the spec's counter invariant the code maintains: fish keep a
non-negative breed countdown, sharks a non-negative starve countdown.  (The
shark breed countdown is *not* constrained — see
`shark_breed_negative_reachable`.) -/
abbrev cellOk (c : Cell) : Prop :=
  (c.type = CellType.Fish → 0 ≤ c.breedTime)
  ∧ (c.type = CellType.Shark → 0 ≤ c.starveTime)

/-- Every cell of the grid satisfies `cellOk`. -/
def gridOk (g : Grid) : Prop := ∀ row ∈ g, ∀ c ∈ row, cellOk c

/-- C1: the claim fails on the code.  `[getA, getB, setA, setB]` is a legal
interleaving of the two workers' programs (each worker's `Get` precedes its
`Set`), and in it both workers observe `false`, i.e. both receive a successful
claim of the same position in the same tick and both proceed to write the
`next` cell — the `Get`-then-`Set` pair is not a single atomic claim-if-free.
In contrast, when one worker's pair completes before the other's `Get`, the
second worker correctly observes `true`. -/
theorem safeMap_get_set_claim_race :
    ((raceRun [MapAct.getA, MapAct.getB, MapAct.setA, MapAct.setB]).obsA = some false
      ∧ (raceRun [MapAct.getA, MapAct.getB, MapAct.setA, MapAct.setB]).obsB = some false)
    ∧ (raceRun [MapAct.getA, MapAct.setA, MapAct.getB, MapAct.setB]).obsB = some true := by
  decide

/-! ## Schedules and the missing pass barrier (C2, C3) -/

/-- C2: the claim fails on the code.  `Game.Update` issues
`go updateShark(band)` and `go updateFish(band)` for every band and waits only
once, so the schedule that runs the jobs in dispatch order — shark(band 0),
fish(band 0), shark(band 1), fish(band 1) — is a behaviour the runtime may
realise, and in it the band-0 fish is processed before the band-1 shark.  The
result is observable: the fish at `(0,0)` moves to `(1,0)` and is nevertheless
eaten by the shark (which writes a `Shark` into `(0,0)`), so the tick yields
both a moved fish and a shark that ate it, unlike the sharks-first barrier
schedule the spec demands, where the eaten fish never moves. -/
theorem update_no_shark_fish_barrier :
    (Update 2 (dispatchJobs [(0, 1), (1, 2)]) [] g22).1
        = [[⟨CellType.Shark, 7, 3⟩, ⟨CellType.Fish, 2, 0⟩], [emptyCell, emptyCell]]
    ∧ (Update 2 (barrierJobs [(0, 1), (1, 2)]) [] g22).1
        = [[⟨CellType.Shark, 7, 3⟩, emptyCell], [emptyCell, emptyCell]] := by
  decide

/-- C3 counterexample: with the same fixed draw stream (`[]`, i.e. all draws
0) and the code's dispatch-order schedule, one band and two bands produce
different next grids, so the result of a tick is not independent of the number
of worker bands. -/
theorem update_band_count_changes_result :
    (Update 2 (dispatchJobs [(0, 2)]) [] g22).1
      ≠ (Update 2 (dispatchJobs [(0, 1), (1, 2)]) [] g22).1 := by
  decide

/-! ## Reachable negative breed counter (C7 counterexample)

A shark that eats a fish gets `BreedTime: cell.BreedTime - 1` (main.go line
138) with no reproduction check and no reset, so a shark that finds a fish
every tick decrements its breed counter without bound. -/

/-- Unfolding of one tick of `run`. -/
theorem run_succ (n : Nat) (ts : List Job) (k : Nat) (r : Rng) (g : Grid) :
    run n ts (k + 1) r g = run n ts k (Update n ts r g).2 (Update n ts r g).1 := rfl

set_option maxRecDepth 40000 in
/-- C7 fails on the code: from a seeded grid (15 fish and one shark with
`BreedTime = 8`), after 9 ticks the shark, having eaten a fish every tick, sits
at `(2,3)` with `BreedTime = -1 < 0` — the eat branch (main.go line 138)
decrements the breed counter without any reset. -/
theorem shark_breed_negative_reachable :
    (gget (run 4 (dispatchJobs [(0, 4)]) 9 [] (Initialise 4 seedDraws)) (2, 3)).type
        = CellType.Shark
    ∧ (gget (run 4 (dispatchJobs [(0, 4)]) 9 [] (Initialise 4 seedDraws)) (2, 3)).breedTime
        < 0 := by
  have step : ∀ (k : Nat) (ga gb : Grid),
      Update 4 (dispatchJobs [(0, 4)]) [] ga = (gb, []) →
      run 4 (dispatchJobs [(0, 4)]) (k + 1) [] ga = run 4 (dispatchJobs [(0, 4)]) k [] gb := by
    intro k ga gb h
    have h' := run_succ 4 (dispatchJobs [(0, 4)]) k [] ga
    rw [h] at h'
    exact h'
  have e0 : Initialise 4 seedDraws = gC7_0 := by decide
  have e1 : Update 4 (dispatchJobs [(0, 4)]) [] gC7_0 = (gC7_1, []) := by decide
  have e2 : Update 4 (dispatchJobs [(0, 4)]) [] gC7_1 = (gC7_2, []) := by decide
  have e3 : Update 4 (dispatchJobs [(0, 4)]) [] gC7_2 = (gC7_3, []) := by decide
  have e4 : Update 4 (dispatchJobs [(0, 4)]) [] gC7_3 = (gC7_4, []) := by decide
  have e5 : Update 4 (dispatchJobs [(0, 4)]) [] gC7_4 = (gC7_5, []) := by decide
  have e6 : Update 4 (dispatchJobs [(0, 4)]) [] gC7_5 = (gC7_6, []) := by decide
  have e7 : Update 4 (dispatchJobs [(0, 4)]) [] gC7_6 = (gC7_7, []) := by decide
  have e8 : Update 4 (dispatchJobs [(0, 4)]) [] gC7_7 = (gC7_8, []) := by decide
  have e9 : Update 4 (dispatchJobs [(0, 4)]) [] gC7_8 = (gC7_9, []) := by decide
  have hrun : run 4 (dispatchJobs [(0, 4)]) 9 [] (Initialise 4 seedDraws) = gC7_9 := by
    rw [e0]
    exact (step 8 _ _ e1).trans ((step 7 _ _ e2).trans ((step 6 _ _ e3).trans
      ((step 5 _ _ e4).trans ((step 4 _ _ e5).trans ((step 3 _ _ e6).trans
      ((step 2 _ _ e7).trans ((step 1 _ _ e8).trans (step 0 _ _ e9))))))))
  rw [hrun]
  decide

/-! ## Topology (C8) -/

/-- `(v - 1 + n) % n` over `Int`, rewritten over `Nat`. -/
theorem wrap_left (n v : Nat) (hn : 1 ≤ n) :
    (((v : Int) + -1 + n) % (n : Int)).toNat = (v + (n - 1)) % n := by
  have h : (v : Int) + -1 + n = ((v + (n - 1) : Nat) : Int) := by push_cast; omega
  rw [h, ← Int.natCast_mod, Int.toNat_ofNat]

/-- `(v + 1 + n) % n` over `Int`, rewritten over `Nat`. -/
theorem wrap_right (n v : Nat) :
    (((v : Int) + 1 + n) % (n : Int)).toNat = (v + 1) % n := by
  have h : (v : Int) + 1 + n = ((v + 1 + n : Nat) : Int) := by push_cast; ring
  rw [h, ← Int.natCast_mod, Int.toNat_ofNat, Nat.add_mod_right]

/-- `(v + 0 + n) % n` over `Int` is `v` when `v < n`. -/
theorem wrap_id (n v : Nat) (hv : v < n) :
    (((v : Int) + 0 + n) % (n : Int)).toNat = v := by
  have h : (v : Int) + 0 + n = ((v + n : Nat) : Int) := by push_cast; ring
  rw [h, ← Int.natCast_mod, Int.toNat_ofNat, Nat.add_mod_right, Nat.mod_eq_of_lt hv]

/-- C8: for every `n ≥ 2` and in-range `(x, y)`, `GetAdjacent` returns exactly
the 4 positions `x±1`, `y±1` with each component wrapped modulo `n`; all of
them are in range, and the neighbours of `(0,0)` include `(n-1, 0)` and
`(0, n-1)`. -/
theorem GetAdjacent_spec (n x y : Nat) (hn : 2 ≤ n) (hx : x < n) (hy : y < n) :
    (GetAdjacent n x y).length = 4
    ∧ GetAdjacent n x y =
        [((x + (n - 1)) % n, y), ((x + 1) % n, y), (x, (y + (n - 1)) % n), (x, (y + 1) % n)]
    ∧ (∀ p ∈ GetAdjacent n x y, p.1 < n ∧ p.2 < n)
    ∧ (n - 1, 0) ∈ GetAdjacent n 0 0
    ∧ (0, n - 1) ∈ GetAdjacent n 0 0 := by
  have hn1 : 1 ≤ n := le_trans (by omega) hn
  have hn0 : 0 < n := hn1
  have hexp : ∀ x' y', x' < n → y' < n → GetAdjacent n x' y' =
      [((x' + (n - 1)) % n, y'), ((x' + 1) % n, y'),
        (x', (y' + (n - 1)) % n), (x', (y' + 1) % n)] := by
    intro x' y' hx' hy'
    simp only [GetAdjacent, List.map]
    rw [wrap_left n x' hn1, wrap_right n x', wrap_id n y' hy', wrap_id n x' hx',
      wrap_left n y' hn1, wrap_right n y']
  have hxy := hexp x y hx hy
  have h00 := hexp 0 0 hn0 hn0
  refine ⟨by rw [hxy]; rfl, hxy, ?_, ?_, ?_⟩
  · intro p hp
    rw [hxy] at hp
    simp only [List.mem_cons, List.not_mem_nil, or_false] at hp
    rcases hp with h | h | h | h <;> subst h <;>
      exact ⟨by first | exact Nat.mod_lt _ hn0 | assumption,
        by first | exact Nat.mod_lt _ hn0 | assumption⟩
  · rw [h00]
    have : (0 + (n - 1)) % n = n - 1 := by
      rw [Nat.zero_add]; exact Nat.mod_eq_of_lt (by omega)
    rw [this]
    exact List.mem_cons_self _ _
  · rw [h00]
    have : (0 + (n - 1)) % n = n - 1 := by
      rw [Nat.zero_add]; exact Nat.mod_eq_of_lt (by omega)
    rw [this]
    simp

/-! ## Grid read/write lemmas -/

/-- `List.getD` returns the default or a member of the list. -/
theorem getD_default_or_mem {α : Type} : ∀ (l : List α) (i : Nat) (d : α),
    l.getD i d = d ∨ l.getD i d ∈ l
  | [], _, _ => Or.inl rfl
  | a :: _, 0, _ => Or.inr (List.mem_cons_self a _)
  | _ :: t, i + 1, d => by
    rcases getD_default_or_mem t i d with h | h
    · exact Or.inl h
    · exact Or.inr (List.mem_cons_of_mem _ h)

/-- Rewrite `gget` through `getElem?`. -/
theorem gget_pair (g : Grid) (px py : Nat) :
    gget g (px, py) = (g[py]?.getD [])[px]?.getD emptyCell := by
  simp [gget, List.getD_eq_getElem?_getD]

/-- Rewrite `gset` through `getElem?`. -/
theorem gset_pair (g : Grid) (px py : Nat) (c : Cell) :
    gset g (px, py) c = g.set py ((g[py]?.getD []).set px c) := by
  simp [gset, List.getD_eq_getElem?_getD]

/-- Reading any position other than the written one is unchanged. -/
theorem gget_gset_ne (g : Grid) (p q : Pos) (c : Cell) (h : p ≠ q) :
    gget (gset g p c) q = gget g q := by
  rcases p with ⟨px, py⟩
  rcases q with ⟨qx, qy⟩
  rw [gget_pair, gget_pair, gset_pair]
  by_cases hy : py = qy
  · subst hy
    have hx : px ≠ qx := fun hx => h (by rw [hx])
    by_cases hlt : py < g.length
    · rw [List.getElem?_set_self hlt, Option.getD_some, List.getElem?_set_ne hx]
    · rw [List.set_eq_of_length_le (le_of_not_lt hlt)]
  · rw [List.getElem?_set_ne hy]

/-- Reading after a write yields either the old cell or the written cell. -/
theorem gget_gset_cases (g : Grid) (p q : Pos) (c : Cell) :
    gget (gset g p c) q = gget g q ∨ gget (gset g p c) q = c := by
  by_cases h : p = q
  · subst h
    rcases p with ⟨px, py⟩
    rw [gget_pair, gget_pair, gset_pair]
    by_cases hlt : py < g.length
    · rw [List.getElem?_set_self hlt, Option.getD_some]
      by_cases hx : px < (g[py]?.getD []).length
      · right
        rw [List.getElem?_set_self hx, Option.getD_some]
      · left
        rw [List.set_eq_of_length_le (le_of_not_lt hx)]
    · left
      rw [List.set_eq_of_length_le (le_of_not_lt hlt)]
  · exact Or.inl (gget_gset_ne g p q c h)

/-! ## Shuffle is a permutation (C10) -/

/-- Replacing entry `m` of `t` by `a` while pulling the old entry to the front
is a permutation of putting `a` in front of `t`. -/
theorem getD_cons_set_perm : ∀ (t : List Pos) (m : Nat) (a : Pos), m < t.length →
    List.Perm (t.getD m (0, 0) :: t.set m a) (a :: t)
  | [], m, _, hm => absurd hm (by simp)
  | c :: s, 0, a, _ => by
    simpa using List.Perm.swap a c s
  | c :: s, m + 1, a, hm => by
    have hm' : m < s.length := by simpa using hm
    have h1 : List.Perm (s.getD m (0, 0) :: c :: s.set m a)
        (c :: s.getD m (0, 0) :: s.set m a) := List.Perm.swap c _ _
    have h2 : List.Perm (c :: s.getD m (0, 0) :: s.set m a) (c :: a :: s) :=
      (getD_cons_set_perm s m a hm').cons c
    have h3 : List.Perm (c :: a :: s) (a :: c :: s) := List.Perm.swap a c s
    simpa using h1.trans (h2.trans h3)

/-- One in-place swap is a permutation. -/
theorem swapL_perm : ∀ (l : List Pos) (i j : Nat), i < l.length → j < l.length →
    List.Perm (swapL l i j) l
  | [], _, _, hi, _ => absurd hi (by simp)
  | c :: t, 0, 0, _, _ => by
    simp [swapL]
  | c :: t, 0, m + 1, _, hj => by
    have hm : m < t.length := by simpa using hj
    simpa [swapL] using getD_cons_set_perm t m c hm
  | c :: t, k + 1, 0, hi, _ => by
    have hk : k < t.length := by simpa using hi
    simpa [swapL] using getD_cons_set_perm t k c hk
  | c :: t, k + 1, m + 1, hi, hj => by
    have hk : k < t.length := by simpa using hi
    have hm : m < t.length := by simpa using hj
    simpa [swapL] using (swapL_perm t k m hk hm).cons c

/-- The shuffle loop is a permutation for any in-range start index. -/
theorem shuffleAux_perm : ∀ (i : Nat) (l : List Pos) (r : Rng), i < l.length →
    List.Perm (shuffleAux i l r).1 l
  | 0, l, r, _ => List.Perm.refl l
  | i + 1, l, r, hi => by
    have hj : (r.headD 0 % (i + 2)) < l.length :=
      lt_of_lt_of_le (Nat.mod_lt _ (by omega)) hi
    have hlen : (swapL l (i + 1) (r.headD 0 % (i + 2))).length = l.length := by
      simp [swapL]
    have hi' : i < (swapL l (i + 1) (r.headD 0 % (i + 2))).length := by
      rw [hlen]; omega
    exact (shuffleAux_perm i _ r.tail hi').trans
      (swapL_perm l (i + 1) _ hi hj)

/-- C10: `Shuffle` permutes the slice in place — the result has the same
length and exactly the same elements (as a multiset) as the input, in some
order, for every input slice and every injected draw stream. -/
theorem Shuffle_perm (l : List Pos) (r : Rng) :
    List.Perm (Shuffle l r).1 l ∧ (Shuffle l r).1.length = l.length := by
  have hp : List.Perm (Shuffle l r).1 l := by
    cases l with
    | nil => exact List.Perm.refl _
    | cons a t =>
      exact shuffleAux_perm ((a :: t).length - 1) (a :: t) r (by simp)
  exact ⟨hp, hp.length_eq⟩

/-! ## Shark eats the first claimable fish (C4) -/

/-- C4: when the shuffled adjacency splits as `pre ++ pos :: post` with no
claimable fish in `pre` and a claimable fish at `pos` (a neighbour holding
`Fish` in `current` whose position is unclaimed), the shark pass claims
exactly `pos`, writes a `Shark` there with `breed_countdown` one less than the
origin shark's and `starve_countdown` reset to the configured maximum, stops
the scan there (the claim set gains only `pos` and no further random draw is
consumed), and leaves the origin cell unwritten in `next`. -/
theorem updateShark_eats_first_claimable_fish (g : Grid) (st : St) (x y : Nat)
    (pre post : List Pos) (pos : Pos)
    (hpre : ∀ q ∈ pre, fishTarget g st.moved q = false)
    (hpos : fishTarget g st.moved pos = true) :
    sharkAct g st x y (pre ++ pos :: post)
      = ⟨gset st.next pos ⟨CellType.Shark, (gget g (x, y)).breedTime - 1, sharkStarveTime⟩,
          pos :: st.moved, st.rng⟩
    ∧ ((x, y) ≠ pos →
        gget (sharkAct g st x y (pre ++ pos :: post)).next (x, y) = gget st.next (x, y)) := by
  have hfind : sharkEat g st.moved (pre ++ pos :: post) = some pos := by
    unfold sharkEat
    rw [List.find?_append]
    have hnone : pre.find? (fishTarget g st.moved) = none := by
      rw [List.find?_eq_none]
      intro a ha
      simp [hpre a ha]
    rw [hnone, List.find?_cons_of_pos _ hpos]
    rfl
  have heq : sharkAct g st x y (pre ++ pos :: post)
      = ⟨gset st.next pos ⟨CellType.Shark, (gget g (x, y)).breedTime - 1, sharkStarveTime⟩,
          pos :: st.moved, st.rng⟩ := by
    unfold sharkAct
    rw [hfind]
  refine ⟨heq, fun hne => ?_⟩
  rw [heq]
  exact gget_gset_ne st.next pos (x, y) _ (fun hp => hne hp.symm)

/-- Witness for C4: a 2×2 grid with the shark at `(0, 1)`, the fish at
`(0, 0)`, and the shuffled adjacency scanning the empty `(1, 1)` first. -/
theorem updateShark_eats_first_claimable_fish_witness :
    sharkAct g22 ⟨emptyGrid 2, [], []⟩ 0 1 [(1, 1), (0, 0)]
      = ⟨gset (emptyGrid 2) (0, 0)
            ⟨CellType.Shark, (gget g22 (0, 1)).breedTime - 1, sharkStarveTime⟩,
          [(0, 0)], []⟩ :=
  (updateShark_eats_first_claimable_fish g22 ⟨emptyGrid 2, [], []⟩ 0 1
    [(1, 1)] [] (0, 0) (by decide) (by decide)).1

/-! ## Shark with no reachable fish (C5) -/

/-- C5: a shark cell `(x, y)` (holding `⟨Shark, b, s⟩` in `current`) whose
shuffled adjacency contains no claimable fish behaves as follows.  With no
claimable empty neighbour either, the unmodified shark is written at the
origin.  Otherwise the destination is drawn by `rand.Intn` over the claimable
empty neighbours (hence a member of them) and both countdowns are decremented
on a copy; if the starve countdown reaches ≤ 0 only `Empty` is written at the
destination (and no shark of this actor remains anywhere in `next`); else if
the breed countdown reaches ≤ 0 a fresh shark is written at the origin and the
moved shark with breed reset to the maximum at the destination; else only the
moved shark with decremented countdowns is written at the destination. -/
theorem updateShark_no_fish_cases (g : Grid) (st : St) (x y : Nat) (adj : List Pos)
    (b s : Int)
    (hcell : gget g (x, y) = ⟨CellType.Shark, b, s⟩)
    (hEat : sharkEat g st.moved adj = none) :
    (emptyNeighbors g st.moved adj = [] →
      sharkAct g st x y adj
        = ⟨gset st.next (x, y) ⟨CellType.Shark, b, s⟩, st.moved, st.rng⟩)
    ∧ (emptyNeighbors g st.moved adj ≠ [] →
        pickDest (emptyNeighbors g st.moved adj) (st.rng.headD 0)
            ∈ emptyNeighbors g st.moved adj
        ∧ (s - 1 ≤ 0 →
            sharkAct g st x y adj
              = ⟨gset st.next (pickDest (emptyNeighbors g st.moved adj) (st.rng.headD 0))
                    emptyCell,
                  pickDest (emptyNeighbors g st.moved adj) (st.rng.headD 0) :: st.moved,
                  st.rng.tail⟩
            ∧ ∀ q, (gget (sharkAct g st x y adj).next q).type = CellType.Shark →
                (gget st.next q).type = CellType.Shark)
        ∧ (0 < s - 1 → b - 1 ≤ 0 →
            sharkAct g st x y adj
              = ⟨gset (gset st.next (x, y) ⟨CellType.Shark, sharkBreedTime, sharkStarveTime⟩)
                    (pickDest (emptyNeighbors g st.moved adj) (st.rng.headD 0))
                    ⟨CellType.Shark, sharkBreedTime, s - 1⟩,
                  pickDest (emptyNeighbors g st.moved adj) (st.rng.headD 0) :: st.moved,
                  st.rng.tail⟩)
        ∧ (0 < s - 1 → 0 < b - 1 →
            sharkAct g st x y adj
              = ⟨gset st.next (pickDest (emptyNeighbors g st.moved adj) (st.rng.headD 0))
                    ⟨CellType.Shark, b - 1, s - 1⟩,
                  pickDest (emptyNeighbors g st.moved adj) (st.rng.headD 0) :: st.moved,
                  st.rng.tail⟩)) := by
  constructor
  · intro hes
    simp only [sharkAct, hEat, hcell, hes]
    rfl
  · intro hne
    have hlen : 0 < (emptyNeighbors g st.moved adj).length := List.length_pos.mpr hne
    have hmem : pickDest (emptyNeighbors g st.moved adj) (st.rng.headD 0)
        ∈ emptyNeighbors g st.moved adj := by
      have hk : st.rng.headD 0 % (emptyNeighbors g st.moved adj).length
          < (emptyNeighbors g st.moved adj).length := Nat.mod_lt _ hlen
      rw [pickDest, List.getD_eq_getElem?_getD, List.getElem?_eq_getElem hk]
      exact List.getElem_mem hk
    refine ⟨hmem, fun hs => ?_, fun hs hb => ?_, fun hs hb => ?_⟩
    · have heq : sharkAct g st x y adj
          = ⟨gset st.next (pickDest (emptyNeighbors g st.moved adj) (st.rng.headD 0))
                emptyCell,
              pickDest (emptyNeighbors g st.moved adj) (st.rng.headD 0) :: st.moved,
              st.rng.tail⟩ := by
        simp only [sharkAct, hEat, hcell, if_pos hlen]
        rw [if_pos hs]
      refine ⟨heq, fun q hq => ?_⟩
      rw [heq] at hq
      rcases gget_gset_cases st.next
          (pickDest (emptyNeighbors g st.moved adj) (st.rng.headD 0)) q emptyCell with h | h
      · rwa [h] at hq
      · rw [h] at hq
        exact absurd hq (by simp [emptyCell])
    · simp only [sharkAct, hEat, hcell, if_pos hlen]
      rw [if_neg (not_le.mpr hs), if_pos hb]
    · simp only [sharkAct, hEat, hcell, if_pos hlen]
      rw [if_neg (not_le.mpr hs), if_neg (not_le.mpr hb)]

/-- Witness for C5 (starvation case): the lone shark with starve countdown 1
and an all-empty neighbourhood dies — only `Empty` is written, at the drawn
destination. -/
theorem updateShark_no_fish_cases_witness :
    sharkAct gLoneShark ⟨emptyGrid 2, [], []⟩ 0 0 (GetAdjacent 2 0 0)
      = ⟨gset (emptyGrid 2)
            (pickDest (emptyNeighbors gLoneShark [] (GetAdjacent 2 0 0)) 0) emptyCell,
          [pickDest (emptyNeighbors gLoneShark [] (GetAdjacent 2 0 0)) 0], []⟩ :=
  (((updateShark_no_fish_cases gLoneShark ⟨emptyGrid 2, [], []⟩ 0 0 (GetAdjacent 2 0 0) 8 1
      (by decide) (by decide)).2 (by decide)).2.1 (by decide)).1

/-! ## Fish update (C6) -/

/-- C6: a fish cell `(x, y)` (holding `⟨Fish, b, si⟩` in `current`) behaves as
follows in the fish pass.  With no claimable empty neighbour in `current`, the
unmodified fish is written at the origin.  Otherwise the destination is drawn
by `rand.Intn` over the claimable empty neighbours (hence a member of them)
and the breed countdown is decremented on a copy; if it reaches ≤ 0 a fresh
fish with the full configured countdown is written at the origin and the moved
fish with the countdown reset to the maximum at the destination (so a lone
fish with `breed_countdown = 1` yields exactly these two fish); otherwise only
the moved fish with the decremented countdown is written at the destination
and the origin cell is left unwritten. -/
theorem updateFish_cases (g : Grid) (st : St) (x y : Nat) (adj : List Pos)
    (b si : Int)
    (hcell : gget g (x, y) = ⟨CellType.Fish, b, si⟩) :
    (emptyNeighbors g st.moved adj = [] →
      fishAct g st x y adj
        = ⟨gset st.next (x, y) ⟨CellType.Fish, b, si⟩, st.moved, st.rng⟩)
    ∧ (emptyNeighbors g st.moved adj ≠ [] →
        pickDest (emptyNeighbors g st.moved adj) (st.rng.headD 0)
            ∈ emptyNeighbors g st.moved adj
        ∧ (b - 1 ≤ 0 →
            fishAct g st x y adj
              = ⟨gset (gset st.next (x, y) ⟨CellType.Fish, fishBreedTime, 0⟩)
                    (pickDest (emptyNeighbors g st.moved adj) (st.rng.headD 0))
                    ⟨CellType.Fish, fishBreedTime, si⟩,
                  pickDest (emptyNeighbors g st.moved adj) (st.rng.headD 0) :: st.moved,
                  st.rng.tail⟩)
        ∧ (0 < b - 1 →
            fishAct g st x y adj
              = ⟨gset st.next (pickDest (emptyNeighbors g st.moved adj) (st.rng.headD 0))
                    ⟨CellType.Fish, b - 1, si⟩,
                  pickDest (emptyNeighbors g st.moved adj) (st.rng.headD 0) :: st.moved,
                  st.rng.tail⟩
            ∧ ((x, y) ≠ pickDest (emptyNeighbors g st.moved adj) (st.rng.headD 0) →
                gget (fishAct g st x y adj).next (x, y) = gget st.next (x, y)))) := by
  constructor
  · intro hes
    simp only [fishAct, hcell, hes]
    rfl
  · intro hne
    have hlen : 0 < (emptyNeighbors g st.moved adj).length := List.length_pos.mpr hne
    have hmem : pickDest (emptyNeighbors g st.moved adj) (st.rng.headD 0)
        ∈ emptyNeighbors g st.moved adj := by
      have hk : st.rng.headD 0 % (emptyNeighbors g st.moved adj).length
          < (emptyNeighbors g st.moved adj).length := Nat.mod_lt _ hlen
      rw [pickDest, List.getD_eq_getElem?_getD, List.getElem?_eq_getElem hk]
      exact List.getElem_mem hk
    refine ⟨hmem, fun hb => ?_, fun hb => ?_⟩
    · simp only [fishAct, hcell, if_pos hlen]
      rw [if_pos hb]
    · have heq : fishAct g st x y adj
          = ⟨gset st.next (pickDest (emptyNeighbors g st.moved adj) (st.rng.headD 0))
                ⟨CellType.Fish, b - 1, si⟩,
              pickDest (emptyNeighbors g st.moved adj) (st.rng.headD 0) :: st.moved,
              st.rng.tail⟩ := by
        simp only [fishAct, hcell, if_pos hlen]
        rw [if_neg (not_le.mpr hb)]
      refine ⟨heq, fun hne' => ?_⟩
      rw [heq]
      exact gget_gset_ne st.next _ (x, y) _ (fun hp => hne' hp.symm)

/-- Witness for C6 (reproduction case): the lone fish with breed countdown 1
yields a fresh fish at the origin and the moved fish at the drawn destination,
both with the full configured countdown. -/
theorem updateFish_cases_witness :
    fishAct gLoneFish ⟨emptyGrid 2, [], []⟩ 0 0 (GetAdjacent 2 0 0)
      = ⟨gset (gset (emptyGrid 2) (0, 0) ⟨CellType.Fish, fishBreedTime, 0⟩)
            (pickDest (emptyNeighbors gLoneFish [] (GetAdjacent 2 0 0)) 0)
            ⟨CellType.Fish, fishBreedTime, 0⟩,
          [pickDest (emptyNeighbors gLoneFish [] (GetAdjacent 2 0 0)) 0], []⟩ :=
  ((updateFish_cases gLoneFish ⟨emptyGrid 2, [], []⟩ 0 0 (GetAdjacent 2 0 0) 1 0
      (by decide)).2 (by decide)).2.1 (by decide)

/-! ## Partition independence under the barrier schedule (C3, amended) -/

/-- Concatenating two adjacent row ranges folds like the combined range. -/
theorem rangeFold_split (f : St → Nat → St) (a h1 h2 : Nat) (st : St) :
    (List.range' (a + h1) h2).foldl f ((List.range' a h1).foldl f st)
      = (List.range' a (h1 + h2)).foldl f st := by
  rw [← List.foldl_append]
  congr 1
  have h := List.range'_append a h1 h2 1
  rw [one_mul] at h
  rw [Nat.add_comm h1 h2]
  exact h

/-- Folding a pass over the bands of a height list, in band order, equals one
pass over the whole covered range. -/
theorem boundsFold (f : St → Nat → St) : ∀ (hs : List Nat) (a : Nat) (st : St),
    (boundsOfHeights a hs).foldl
        (fun st b => (List.range' b.1 (b.2 - b.1)).foldl f st) st
      = (List.range' a hs.sum).foldl f st := by
  intro hs
  induction hs with
  | nil =>
    intro a st
    simp [boundsOfHeights]
  | cons h t ih =>
    intro a st
    simp only [boundsOfHeights, List.foldl_cons, List.sum_cons]
    have e1 : a + h - a = h := by omega
    rw [e1, ih (a + h) ((List.range' a h).foldl f st), rangeFold_split]

/-- C3, amended: for a schedule with the spec's barrier — every shark band
(run in band order) completes before any fish band — the tick result is the
same for every band partition of the rows, i.e. the number of worker bands
does not affect the outcome for a fixed injected draw stream.  (The tick is a
function of the grid, the draw stream and the schedule, so two runs with the
same inputs agree; by `update_band_count_changes_result` the band-count
independence fails for the code's actual unbarriered dispatch schedule.) -/
theorem update_barrier_partition_independent (n : Nat) (hs : List Nat) (r : Rng)
    (g : Grid) (hsum : hs.sum = n) :
    Update n (barrierJobs (boundsOfHeights 0 hs)) r g
      = Update n (barrierJobs [(0, n)]) r g := by
  have hrun : ∀ st : St, runJobs n g (barrierJobs (boundsOfHeights 0 hs)) st
      = runJobs n g (barrierJobs [(0, n)]) st := by
    intro st
    unfold runJobs barrierJobs
    rw [List.foldl_append, List.foldl_append, List.foldl_map, List.foldl_map,
      List.foldl_map, List.foldl_map]
    simp only [runJob, updateShark, updateFish]
    rw [boundsFold (sharkRow n g) hs 0 st, hsum,
      boundsFold (fishRow n g) hs 0 ((List.range' 0 n).foldl (sharkRow n g) st), hsum]
    simp
  unfold Update
  rw [hrun ⟨emptyGrid n, [], r⟩]

/-- Witness for the amended C3: splitting the 4×4 grid into two bands of two
rows gives the same tick result as one band of four rows, under the barrier
schedule. -/
theorem update_barrier_partition_independent_witness :
    Update 4 (barrierJobs (boundsOfHeights 0 [2, 2])) [] gC7_0
      = Update 4 (barrierJobs [(0, 4)]) [] gC7_0 :=
  update_barrier_partition_independent 4 [2, 2] [] gC7_0 (by decide)

/-! ## The all-empty grid is a fixed point (C9) -/

/-- Every read of the all-empty grid yields the empty cell. -/
theorem gget_emptyGrid (n : Nat) (p : Pos) : gget (emptyGrid n) p = emptyCell := by
  unfold gget emptyGrid
  rcases getD_default_or_mem (List.replicate n (List.replicate n emptyCell)) p.2 []
      with hrow | hrow
  · rw [hrow]
    rfl
  · rw [List.eq_of_mem_replicate hrow]
    rcases getD_default_or_mem (List.replicate n emptyCell) p.1 emptyCell with hc | hc
    · exact hc
    · exact List.eq_of_mem_replicate hc

/-- A fold whose step never changes the state is the identity. -/
theorem foldl_fix {α β : Type} (f : β → α → β) (h : ∀ s a, f s a = s) :
    ∀ (l : List α) (st : β), l.foldl f st = st := by
  intro l
  induction l with
  | nil => intro st; rfl
  | cons a t ih => intro st; rw [List.foldl_cons, h st a]; exact ih st

/-- The shark pass skips every cell of the all-empty grid. -/
theorem sharkCellStep_empty (n : Nat) (st : St) (x y : Nat) :
    sharkCellStep n (emptyGrid n) st x y = st := by
  unfold sharkCellStep
  split
  · rfl
  · rw [gget_emptyGrid]
    simp [emptyCell]

/-- The fish pass skips every cell of the all-empty grid. -/
theorem fishCellStep_empty (n : Nat) (st : St) (x y : Nat) :
    fishCellStep n (emptyGrid n) st x y = st := by
  unfold fishCellStep
  split
  · rfl
  · rw [gget_emptyGrid]
    simp [emptyCell]

/-- Any worker job leaves the state unchanged on the all-empty grid. -/
theorem runJob_empty (n : Nat) (st : St) (j : Job) :
    runJob n (emptyGrid n) st j = st := by
  cases j with
  | sharkJob a b =>
    unfold runJob updateShark sharkRow
    exact foldl_fix _ (fun s y => foldl_fix _ (fun s' x => sharkCellStep_empty n s' x y) _ s) _ st
  | fishJob a b =>
    unfold runJob updateFish fishRow
    exact foldl_fix _ (fun s y => foldl_fix _ (fun s' x => fishCellStep_empty n s' x y) _ s) _ st

/-- One tick of the all-empty grid returns it unchanged (and consumes no
random draw), for every schedule. -/
theorem Update_empty (n : Nat) (ts : List Job) (r : Rng) :
    Update n ts r (emptyGrid n) = (emptyGrid n, r) := by
  unfold Update runJobs
  rw [foldl_fix (runJob n (emptyGrid n)) (runJob_empty n) ts]

/-- C9: a grid consisting entirely of `Empty` cells is a fixed point of the
tick operation — advancing it any number of ticks, under any schedule and any
injected draw stream, leaves every cell `Empty`. -/
theorem empty_grid_fixed_point (n : Nat) (ts : List Job) (k : Nat) (r : Rng) :
    run n ts k r (emptyGrid n) = emptyGrid n := by
  induction k generalizing r with
  | zero => rfl
  | succ k ih =>
    rw [run_succ, Update_empty]
    exact ih r

/-! ## Non-negative counters (C7, amended) -/

/-- A shark cell with non-negative starve countdown satisfies the invariant. -/
theorem cellOk_shark (b s : Int) (hs : 0 ≤ s) : cellOk ⟨CellType.Shark, b, s⟩ :=
  ⟨(fun h => nomatch h), fun _ => hs⟩

/-- A fish cell with non-negative breed countdown satisfies the invariant. -/
theorem cellOk_fish (b s : Int) (hb : 0 ≤ b) : cellOk ⟨CellType.Fish, b, s⟩ :=
  ⟨(fun _ => hb), fun h => nomatch h⟩

/-- Reads from a `gridOk` grid satisfy `cellOk`. -/
theorem gridOk_gget {g : Grid} (h : gridOk g) (p : Pos) : cellOk (gget g p) := by
  unfold gget
  rcases getD_default_or_mem g p.2 [] with hrow | hrow
  · rw [hrow]
    show cellOk emptyCell
    decide
  · rcases getD_default_or_mem (g.getD p.2 []) p.1 emptyCell with hc | hc
    · rw [hc]
      decide
    · exact h _ hrow _ hc

/-- Writing a `cellOk` cell preserves `gridOk`. -/
theorem gridOk_gset {g : Grid} (hg : gridOk g) (p : Pos) {c : Cell} (hc : cellOk c) :
    gridOk (gset g p c) := by
  intro row hrow d hd
  unfold gset at hrow
  rcases List.mem_or_eq_of_mem_set hrow with hrow' | hrow'
  · exact hg _ hrow' _ hd
  · subst hrow'
    rcases List.mem_or_eq_of_mem_set hd with hd' | hd'
    · rcases getD_default_or_mem g p.2 [] with h0 | h0
      · rw [h0] at hd'
        cases hd'
      · exact hg _ h0 _ hd'
    · subst hd'
      exact hc

/-- Every write of the shark step keeps the counters invariant. -/
theorem sharkAct_ok (g : Grid) (st : St) (x y : Nat) (adj : List Pos)
    (hg : gridOk g) (hn : gridOk st.next) : gridOk (sharkAct g st x y adj).next := by
  cases hfind : sharkEat g st.moved adj with
  | some pos =>
    simp only [sharkAct, hfind]
    exact gridOk_gset hn _ (cellOk_shark _ _ (by decide))
  | none =>
    by_cases hlen : 0 < (emptyNeighbors g st.moved adj).length
    · by_cases hs : (gget g (x, y)).starveTime - 1 ≤ 0
      · simp only [sharkAct, hfind, if_pos hlen, if_pos hs]
        exact gridOk_gset hn _ (by decide)
      · by_cases hb : (gget g (x, y)).breedTime - 1 ≤ 0
        · simp only [sharkAct, hfind, if_pos hlen, if_neg hs, if_pos hb]
          exact gridOk_gset (gridOk_gset hn _ (by decide)) _
            (cellOk_shark _ _ (by omega))
        · simp only [sharkAct, hfind, if_pos hlen, if_neg hs, if_neg hb]
          exact gridOk_gset hn _ (cellOk_shark _ _ (by omega))
    · simp only [sharkAct, hfind, if_neg hlen]
      exact gridOk_gset hn _ (gridOk_gget hg (x, y))

/-- Every write of the fish step keeps the counters invariant. -/
theorem fishAct_ok (g : Grid) (st : St) (x y : Nat) (adj : List Pos)
    (hg : gridOk g) (hn : gridOk st.next) : gridOk (fishAct g st x y adj).next := by
  by_cases hlen : 0 < (emptyNeighbors g st.moved adj).length
  · by_cases hb : (gget g (x, y)).breedTime - 1 ≤ 0
    · simp only [fishAct, if_pos hlen, if_pos hb]
      exact gridOk_gset (gridOk_gset hn _ (by decide)) _ (cellOk_fish _ _ (by decide))
    · simp only [fishAct, if_pos hlen, if_neg hb]
      exact gridOk_gset hn _ (cellOk_fish _ _ (by omega))
  · simp only [fishAct, if_neg hlen]
    exact gridOk_gset hn _ (gridOk_gget hg (x, y))

/-- The shark loop body preserves the invariant. -/
theorem sharkCellStep_ok (n : Nat) (g : Grid) (st : St) (x y : Nat)
    (hg : gridOk g) (hn : gridOk st.next) : gridOk (sharkCellStep n g st x y).next := by
  unfold sharkCellStep
  split
  · exact hn
  · split
    · exact sharkAct_ok g ⟨st.next, st.moved, _⟩ x y _ hg hn
    · exact hn

/-- The fish loop body preserves the invariant. -/
theorem fishCellStep_ok (n : Nat) (g : Grid) (st : St) (x y : Nat)
    (hg : gridOk g) (hn : gridOk st.next) : gridOk (fishCellStep n g st x y).next := by
  unfold fishCellStep
  split
  · exact hn
  · split
    · exact fishAct_ok g st x y _ hg hn
    · exact hn

/-- A fold preserves any property its step preserves. -/
theorem foldl_pres {α : Type} (f : St → α → St) (P : St → Prop)
    (hf : ∀ s a, P s → P (f s a)) : ∀ (l : List α) (s : St), P s → P (l.foldl f s) := by
  intro l
  induction l with
  | nil => intro s hs; exact hs
  | cons a t ih => intro s hs; exact ih _ (hf s a hs)

/-- Worker jobs preserve the invariant on the `next` buffer. -/
theorem runJob_ok (n : Nat) (g : Grid) (hg : gridOk g) (st : St) (j : Job)
    (hn : gridOk st.next) : gridOk (runJob n g st j).next := by
  cases j with
  | sharkJob a b =>
    unfold runJob updateShark
    refine foldl_pres (sharkRow n g) (fun s => gridOk s.next) ?_ _ st hn
    intro s yy hs
    exact foldl_pres _ (fun s => gridOk s.next)
      (fun s' xx hx => sharkCellStep_ok n g s' xx yy hg hx) _ s hs
  | fishJob a b =>
    unfold runJob updateFish
    refine foldl_pres (fishRow n g) (fun s => gridOk s.next) ?_ _ st hn
    intro s yy hs
    exact foldl_pres _ (fun s => gridOk s.next)
      (fun s' xx hx => fishCellStep_ok n g s' xx yy hg hx) _ s hs

/-- One tick preserves the invariant, for every schedule and draw stream. -/
theorem Update_ok (n : Nat) (ts : List Job) (r : Rng) (g : Grid) (hg : gridOk g) :
    gridOk (Update n ts r g).1 := by
  have h0 : gridOk (emptyGrid n) := by
    intro row hrow c hc
    rw [List.eq_of_mem_replicate hrow] at hc
    rw [List.eq_of_mem_replicate hc]
    decide
  exact foldl_pres (runJob n g) (fun s => gridOk s.next)
    (fun s j hs => runJob_ok n g hg s j hs) ts ⟨emptyGrid n, [], r⟩ h0

/-- Iterated ticks preserve the invariant. -/
theorem run_ok (n : Nat) (ts : List Job) : ∀ (k : Nat) (r : Rng) (g : Grid),
    gridOk g → gridOk (run n ts k r g) := by
  intro k
  induction k with
  | zero => intro r g hg; exact hg
  | succ k ih =>
    intro r g hg
    rw [run_succ]
    exact ih _ _ (Update_ok n ts r g hg)

/-- The seeded grid satisfies the invariant. -/
theorem Initialise_ok (n : Nat) (draws : Rng) : gridOk (Initialise n draws) := by
  intro row hrow c hc
  unfold Initialise at hrow
  rcases List.mem_map.mp hrow with ⟨y, _, hyrow⟩
  subst hyrow
  rcases List.mem_map.mp hc with ⟨x, _, hxc⟩
  subst hxc
  unfold initCell
  split_ifs
  · decide
  · decide
  · decide

/-- C7, amended: in every reachable grid state — initial seeding followed by
any number of ticks, under any schedule and draw streams — every `Fish` cell
has `breed_countdown ≥ 0` and every `Shark` cell has `starve_countdown ≥ 0`.
(The original claim's `breed_countdown ≥ 0` for sharks is refuted by
`shark_breed_negative_reachable`: the eat branch decrements it with no
reset.) -/
theorem counters_nonneg_amended (n k : Nat) (draws r : Rng) (ts : List Job)
    (row : List Cell) (c : Cell)
    (hrow : row ∈ run n ts k r (Initialise n draws)) (hc : c ∈ row) :
    (c.type = CellType.Fish → 0 ≤ c.breedTime)
    ∧ (c.type = CellType.Shark → 0 ≤ c.starveTime) :=
  run_ok n ts k r (Initialise n draws) (Initialise_ok n draws) row hrow c hc

/-- Witness for the amended C7, at a 1×1 grid seeded with one shark and zero
ticks. -/
theorem counters_nonneg_amended_witness :
    ((⟨CellType.Shark, 8, 3⟩ : Cell).type = CellType.Fish
        → 0 ≤ (⟨CellType.Shark, 8, 3⟩ : Cell).breedTime)
    ∧ ((⟨CellType.Shark, 8, 3⟩ : Cell).type = CellType.Shark
        → 0 ≤ (⟨CellType.Shark, 8, 3⟩ : Cell).starveTime) :=
  counters_nonneg_amended 1 0 [60] [] [] [⟨CellType.Shark, 8, 3⟩] ⟨CellType.Shark, 8, 3⟩
    (by decide) (by decide)

/-- Witness for C8 at `n = 5`, `(x, y) = (3, 2)`. -/
theorem GetAdjacent_spec_witness :
    (GetAdjacent 5 3 2).length = 4
    ∧ (4, 0) ∈ GetAdjacent 5 0 0
    ∧ (0, 4) ∈ GetAdjacent 5 0 0 :=
  ⟨(GetAdjacent_spec 5 3 2 (by decide) (by decide) (by decide)).1,
    (GetAdjacent_spec 5 3 2 (by decide) (by decide) (by decide)).2.2.2.1,
    (GetAdjacent_spec 5 3 2 (by decide) (by decide) (by decide)).2.2.2.2⟩

end Wator
